import Mathlib

/-!
Verification of the GitHub agent core (`part1_github_agent/github_agent.py`):
the resilient request executor `http_get_json`, the paginated fetcher
`paginate_repos`, and the metrics aggregator `analyze_repos`, shallowly
embedded in Lean.

Modelling conventions:
* machine ints are `Nat`/`Int`;
* the float `sleep_seconds` argument is modelled as `Rat` (all values the
  program multiplies it by are small naturals, where float arithmetic is exact);
* real I/O (sleeping, issuing a request) is modelled by instrumenting the
  functions: the executor consumes a script of per-attempt response outcomes
  and returns, besides its result, the list of slept durations and the number
  of attempts made; the paginator consumes a map from URL to response and
  returns the yielded records, the list of requested URLs, and whether the
  loop terminated within the given fuel;
* the wall clock is a parameter (`now`, read per attempt in the executor and
  fixed per fold in the aggregator).
-/

namespace GithubAgent

/-! ## Resilient request executor: `http_get_json` -/

/-- Outcome of one `urlopen` attempt, as the executor observes it.
`ok` is a 2xx response with a JSON-parseable body (decoded body of type `β`
plus the response headers, a plain ordered key/value map).
`httpErr` is a `urllib.error.HTTPError` carrying the status code and the
(case-insensitively looked-up) `X-RateLimit-Reset` header value.
`urlErr` is a `urllib.error.URLError` (DNS failure, connection reset, timeout). -/
inductive Outcome (β : Type) where
  | ok (body : β) (hdrs : List (String × String))
  | httpErr (code : Nat) (rateLimitReset : Option String)
  | urlErr
deriving DecidableEq, Repr

/-- Error surfaced (raised) by `http_get_json`.
`runtime` models the unreachable trailing `RuntimeError("GET failed without
exception")`. -/
inductive HErr where
  | http (code : Nat) (rateLimitReset : Option String)
  | url
  | runtime
deriving DecidableEq, Repr

/-- Result of `http_get_json`: either the decoded body with the header map
(built by `{k: v for k, v in resp.headers.items()}`, i.e. copied verbatim),
or a raised error. -/
inductive Res (β : Type) where
  | success (body : β) (hdrs : List (String × String))
  | failure (e : HErr)
deriving DecidableEq, Repr

/-- Python `str.isdigit()` restricted to ASCII digit strings (the reset header
values the program meets are ASCII decimal epochs). -/
def isDigitString (s : String) : Bool :=
  decide (s.length > 0) && s.data.all Char.isDigit

/-- Python `int(...)` on an ASCII digit string. -/
def digitsToNat (s : String) : Nat :=
  s.data.foldl (fun a c => a * 10 + (c.toNat - 48)) 0

/-- `reset = e.headers.get("X-RateLimit-Reset"); if reset and reset.isdigit()`:
the parsed reset epoch when the header is present, non-empty and numeric. -/
def resetDigit : Option String → Option Nat
  | none => none
  | some s => if isDigitString s then some (digitsToNat s) else none

/-- One call to `time.sleep`, recorded symbolically:
`backoff k` is the linear-backoff sleep `time.sleep(sleep_seconds * k)`
(where `k = attempt + 1` is the 1-based attempt number), and
`rate d` is the rate-limit sleep `time.sleep(min(wait, 60))` of `d` whole
seconds.  The interpretation as an actual duration is `SleepEvt.duration`. -/
inductive SleepEvt where
  | backoff (k : Nat)
  | rate (d : Int)
deriving DecidableEq, Repr

/-- The duration in seconds of a recorded sleep, given the (float, modelled
exactly as rational) `sleep_seconds` base delay. -/
def SleepEvt.duration (sleepSeconds : Rat) : SleepEvt → Rat
  | .backoff k => sleepSeconds * k
  | .rate d => d

/-- The attempt loop `for attempt in range(retries + 1)` of `http_get_json`.
`remaining` is the number of loop iterations left (`retries + 1 - attempt`),
the `Option HErr` argument is the running `last_err`, `sleeps` accumulates the
calls to `time.sleep`. Returns (result, sleeps performed, attempts made). -/
def httpAttempts (script : Nat → Outcome β) (now : Nat → Int) (retries : Nat) :
    Nat → Nat → Option HErr → List SleepEvt → Res β × List SleepEvt × Nat
  | 0, attempt, lastErr, sleeps =>
    -- loop exhausted: `if last_err: raise last_err` else the RuntimeError
    (match lastErr with
     | some e => .failure e
     | none => .failure .runtime, sleeps, attempt)
  | remaining + 1, attempt, _lastErr, sleeps =>
    match script attempt with
    | .ok body hdrs => (.success body hdrs, sleeps, attempt + 1)
    | .urlErr =>
      if attempt < retries then
        httpAttempts script now retries remaining (attempt + 1)
          (some .url) (sleeps ++ [.backoff (attempt + 1)])
      else
        (.failure .url, sleeps, attempt + 1)
    | .httpErr code reset =>
      if code = 403 ∧ (resetDigit reset).isSome then
        -- rate-limit branch: sleep min(wait, 60) and `continue`
        let resetEpoch : Int := ((resetDigit reset).getD 0 : Nat)
        let wait : Int := max 0 (resetEpoch - now attempt) + 1
        httpAttempts script now retries remaining (attempt + 1)
          (some (.http code reset)) (sleeps ++ [.rate (min wait 60)])
      else if 500 ≤ code ∧ code < 600 ∧ attempt < retries then
        httpAttempts script now retries remaining (attempt + 1)
          (some (.http code reset)) (sleeps ++ [.backoff (attempt + 1)])
      else
        (.failure (.http code reset), sleeps, attempt + 1)

/-- `http_get_json(url, headers, retries, sleep_seconds)`: run the attempt
loop from attempt 0 with `retries + 1` iterations available, no `last_err`,
and nothing slept yet.  (The `url` and request `headers` do not influence the
control flow being verified; every attempt re-requests the same URL, which is
reflected in the script being indexed by attempt number only.  The
`sleep_seconds` base delay only scales `backoff` sleeps, see
`SleepEvt.duration`, so it is not a parameter of the control flow.) -/
def http_get_json (script : Nat → Outcome β) (now : Nat → Int) (retries : Nat) :
    Res β × List SleepEvt × Nat :=
  httpAttempts script now retries (retries + 1) 0 none []

/-- The sleep performed by the rate-limit branch at attempt `i` when the reset
header holds digit string `s`: `min(max(0, reset_epoch - now) + 1, 60)`. -/
def rateSleep (now : Nat → Int) (s : String) (i : Nat) : SleepEvt :=
  .rate (min (max 0 ((digitsToNat s : Int) - now i) + 1) 60)

/-- A response script that answers every attempt with HTTP 403 carrying a
numeric `X-RateLimit-Reset` header (epoch 100). -/
def all403Script : Nat → Outcome Unit :=
  fun _ => .httpErr 403 (some "100")

/-- A script: two 503 responses, then a 200 whose body is `b`. -/
def twoThen200Script (b : Nat) : Nat → Outcome Nat :=
  fun i => if i < 2 then .httpErr 503 none else .ok b [("X-Served-By", "s")]

/-- A script answering every attempt with HTTP 503. -/
def all503Script : Nat → Outcome Nat :=
  fun _ => .httpErr 503 none

/-! ## Paginated fetcher: `paginate_repos` -/

/-- Python `dict.get(k)` on the header map built by the executor
(`{k: v for k, v in resp.headers.items()}`): exact, case-sensitive key
lookup. -/
def dictGet (m : List (String × String)) (k : String) : Option String :=
  (m.find? (fun p => p.1 = k)).map (fun p => p.2)

/-- Python `a or b` on two `str | None` values: `a` unless it is `None` or
the empty string (falsy). -/
def pyOrStr : Option String → Option String → Option String
  | none, b => b
  | some v, b => if v = "" then b else some v

/-- `resp_headers.get("Link") or resp_headers.get("link")`. -/
def linkHeaderOf (hdrs : List (String × String)) : Option String :=
  pyOrStr (dictGet hdrs "Link") (dictGet hdrs "link")

/-- Python `p.split(sep)` for a one-character separator, over char lists. -/
def splitOnChar (sep : Char) : List Char → List (List Char)
  | [] => [[]]
  | c :: rest =>
    let r := splitOnChar sep rest
    if c = sep then [] :: r
    else
      match r with
      | [] => [[c]]
      | h :: t => (c :: h) :: t

/-- Python `p.strip()` (for the ASCII whitespace that occurs in Link
headers), over char lists. -/
def trimChars (cs : List Char) : List Char :=
  ((cs.dropWhile Char.isWhitespace).reverse.dropWhile Char.isWhitespace).reverse

/-- Whether `needle` occurs as a contiguous run inside `hay`
(Python `needle in p`). -/
def charsContain (needle : List Char) : List Char → Bool
  | [] => needle.isEmpty
  | c :: rest => needle.isPrefixOf (c :: rest) || charsContain needle rest

/-- Index of the first occurrence of `c` in `cs` at position `≥ start`
(Python `p.find(c, start)` returning `none` for -1). -/
def findCharFrom (c : Char) (start : Nat) (cs : List Char) : Option Nat :=
  match cs with
  | [] => none
  | d :: rest =>
    if start = 0 ∧ d = c then some 0
    else
      match findCharFrom c (start - 1) rest with
      | some i => some (i + 1)
      | none => none

/-- `start = p.find("<"); end = p.find(">", start + 1); p[start+1:end]`:
the URL between the first angle brackets of one Link-header part, when both
brackets are found. -/
def bracketUrl (cs : List Char) : Option String :=
  match findCharFrom '<' 0 cs with
  | none => none
  | some s =>
    match findCharFrom '>' (s + 1) cs with
    | none => none
    | some e => some (String.mk ((cs.drop (s + 1)).take (e - (s + 1))))

/-- The loop over the comma-separated parts of the Link header: the first
part containing the substring `rel="next"` and a well-bracketed URL yields
that URL (a part containing the substring but no brackets is skipped, the
scan going on — the `break` sits inside the inner `if`). -/
def findNextInParts : List (List Char) → Option String
  | [] => none
  | p :: rest =>
    if charsContain "rel=\"next\"".data p then
      match bracketUrl p with
      | some u => some u
      | none => findNextInParts rest
    else findNextInParts rest

/-- Parse one Link header value: split on commas, strip whitespace, scan the
parts for the `rel="next"` URL. -/
def parseNextFromLink (v : String) : Option String :=
  findNextInParts ((splitOnChar ',' v.data).map trimChars)

/-- The next-page URL computed at the bottom of the pagination loop:
`url = None`, then if the (`"Link"`-or-`"link"`, truthy) header is present,
scan it for the `rel="next"` URL. -/
def findNextUrl (hdrs : List (String × String)) : Option String :=
  match linkHeaderOf hdrs with
  | none => none
  | some v => if v = "" then none else parseNextFromLink v

/-- One page as `http_get_json` hands it to the fetcher: decoded body and
response headers. A body that is not a JSON array is `notArr`. -/
inductive Body (α : Type) where
  | arr (items : List α)
  | notArr
deriving DecidableEq, Repr

/-- A page response: decoded JSON body plus response-header map. -/
structure PageResp (α : Type) where
  body : Body α
  hdrs : List (String × String)

/-- The `while url:` loop of `paginate_repos`, instrumented: `server` maps a
URL to its (successful) response, `fuel` bounds the number of iterations we
observe.  Returns (records yielded, URLs requested, whether the loop
terminated by itself within the fuel).  There is no repeated-URL check of any
kind: whatever URL `findNextUrl` produces is requested next. -/
def paginateAux (server : String → PageResp α) :
    Nat → Option String → List α × List String × Bool
  | 0, url =>
    -- out of fuel: loop already terminated iff `url` is falsy
    (match url with
     | none => ([], [], true)
     | some u => if u = "" then ([], [], true) else ([], [], false))
  | fuel + 1, url =>
    match url with
    | none => ([], [], true)
    | some u =>
      if u = "" then ([], [], true)
      else
        let resp := server u
        match resp.body with
        | .notArr => ([], [u], true)
        | .arr items =>
          let rest := paginateAux server fuel (findNextUrl resp.hdrs)
          (items ++ rest.1, u :: rest.2.1, rest.2.2)

/-- The constructed first-page URL of `paginate_repos`. -/
def firstPageUrl (username : String) : String :=
  "https://api.github.com/users/" ++ username ++
    "/repos?per_page=100&type=owner&sort=updated"

/-- `paginate_repos(username, headers)`, its generator run for `fuel` loop
iterations against `server`. -/
def paginate_repos (server : String → PageResp α) (username : String)
    (fuel : Nat) : List α × List String × Bool :=
  paginateAux server fuel (some (firstPageUrl username))

/-- A server whose every page carries one record and a `Link` header whose
`rel="next"` URL is the same fixed URL `https://x/p1`: the next-page cursor
repeats forever. -/
def selfLoopServer : String → PageResp Nat :=
  fun _ => ⟨.arr [7], [("Link", "<https://x/p1>; rel=\"next\"")]⟩

/-! ## Metrics aggregator: `analyze_repos`

The timestamps the aggregator meets are ISO-8601 strings; `iso_to_dt`
replaces every `"Z"` by `"+00:00"` and hands the result to
`datetime.fromisoformat`.  The embedding models `fromisoformat` on the
offset-carrying, whole-second grammar `YYYY-MM-DDTHH:MM:SS±HH:MM` (the shape
the GitHub API produces, after the `Z` replacement); other strings are
treated as unparseable.  An aware `datetime` keeps its civil components plus
its UTC offset, and compares by UTC instant (`epochSeconds`). -/

/-- An aware `datetime`: civil components plus UTC offset in minutes. -/
structure DT where
  year : Nat
  month : Nat
  day : Nat
  hour : Nat
  minute : Nat
  second : Nat
  offset : Int
deriving DecidableEq, Repr

/-- Gregorian leap year. -/
def isLeap (y : Nat) : Bool :=
  (y % 4 = 0 && y % 100 ≠ 0) || y % 400 = 0

/-- Length of a month, as `datetime` validates the day component. -/
def daysInMonth (y m : Nat) : Nat :=
  if m = 2 then (if isLeap y then 29 else 28)
  else if m = 4 ∨ m = 6 ∨ m = 9 ∨ m = 11 then 30
  else 31

/-- Days from 1970-01-01 to year/month/day (civil-from-days algorithm,
specialised to years ≥ 1 so `Nat` arithmetic suffices internally). -/
def daysFromCivil (y m d : Nat) : Int :=
  let yAdj := if m ≤ 2 then y - 1 else y
  let era := yAdj / 400
  let yoe := yAdj % 400
  let mp := if m ≤ 2 then m + 9 else m - 3
  let doy := (153 * mp + 2) / 5 + d - 1
  let doe := yoe * 365 + yoe / 4 - yoe / 100 + doy
  ((era * 146097 + doe : Nat) : Int) - 719468

/-- The UTC instant of an aware `datetime`, in seconds since the epoch;
aware `datetime` comparison and subtraction compare these instants. -/
def epochSeconds (t : DT) : Int :=
  daysFromCivil t.year t.month t.day * 86400 +
    (t.hour * 3600 + t.minute * 60 + t.second : Nat) - t.offset * 60

/-- Two-digit field of the fixed-position ISO grammar. -/
def twoDigits (a b : Char) : Option Nat :=
  if a.isDigit && b.isDigit then some ((a.toNat - 48) * 10 + (b.toNat - 48))
  else none

/-- `datetime.fromisoformat` on the aware whole-second grammar
`YYYY-MM-DDTHH:MM:SS±HH:MM` (25 characters), validating every component the
way `datetime` does: year ≥ 1, month in 1..12, day in 1..days-in-month, hour
≤ 23, minute and second ≤ 59, offset hours ≤ 23 and offset minutes ≤ 59. -/
def parseAwareIso (s : String) : Option DT :=
  match s.data with
  | [y1, y2, y3, y4, c1, m1, m2, c2, d1, d2, sep,
     h1, h2, c3, n1, n2, c4, s1, s2, sg, o1, o2, c5, o3, o4] =>
    if c1 = '-' ∧ c2 = '-' ∧ sep = 'T' ∧ c3 = ':' ∧ c4 = ':' ∧ c5 = ':' ∧
        (sg = '+' ∨ sg = '-') then
      match twoDigits y1 y2, twoDigits y3 y4, twoDigits m1 m2, twoDigits d1 d2,
          twoDigits h1 h2, twoDigits n1 n2, twoDigits s1 s2,
          twoDigits o1 o2, twoDigits o3 o4 with
      | some yh, some yl, some mo, some da, some ho, some mi, some se,
          some oh, some om =>
        let y := yh * 100 + yl
        if 1 ≤ y ∧ 1 ≤ mo ∧ mo ≤ 12 ∧ 1 ≤ da ∧ da ≤ daysInMonth y mo ∧
            ho ≤ 23 ∧ mi ≤ 59 ∧ se ≤ 59 ∧ oh ≤ 23 ∧ om ≤ 59 then
          some ⟨y, mo, da, ho, mi, se,
            (if sg = '-' then -1 else 1) * ((oh * 60 + om : Nat) : Int)⟩
        else none
      | _, _, _, _, _, _, _, _, _ => none
    else none
  | _ => none

/-- Python `s.replace("Z", "+00:00")` (every occurrence), over char lists. -/
def replaceZ : List Char → List Char
  | [] => []
  | c :: rest =>
    if c = 'Z' then '+' :: '0' :: '0' :: ':' :: '0' :: '0' :: replaceZ rest
    else c :: replaceZ rest

/-- `iso_to_dt(s)`: `None` for an absent or falsy (empty) string, else
`datetime.fromisoformat(s.replace("Z", "+00:00"))`, with a parse failure
giving `None`. -/
def iso_to_dt : Option String → Option DT
  | none => none
  | some s =>
    if s = "" then none
    else parseAwareIso (String.mk (replaceZ s.data))

/-- Zero-padded two-digit rendering (`%m`, and the fields of `isoformat`). -/
def pad2 (n : Nat) : String :=
  if n < 10 then "0" ++ toString n else toString n

/-- `updated.strftime("%Y-%m")`: the month-bucket key.  (`%Y` is rendered
without padding, as glibc does; every year the program meets is
four-digit.) -/
def ymKey (t : DT) : String :=
  toString t.year ++ "-" ++ pad2 t.month

/-- Zero-padded four-digit year of `datetime.isoformat`. -/
def pad4 (n : Nat) : String :=
  if n < 10 then "000" ++ toString n
  else if n < 100 then "00" ++ toString n
  else if n < 1000 then "0" ++ toString n
  else toString n

/-- The `±HH:MM` suffix of `datetime.isoformat` for an aware value. -/
def offsetSuffix (off : Int) : String :=
  if off < 0 then "-" ++ pad2 ((-off).toNat / 60) ++ ":" ++ pad2 ((-off).toNat % 60)
  else "+" ++ pad2 (off.toNat / 60) ++ ":" ++ pad2 (off.toNat % 60)

/-- `datetime.isoformat()` of an aware whole-second value. -/
def isoformat (t : DT) : String :=
  pad4 t.year ++ "-" ++ pad2 t.month ++ "-" ++ pad2 t.day ++ "T" ++
    pad2 t.hour ++ ":" ++ pad2 t.minute ++ ":" ++ pad2 t.second ++
    offsetSuffix t.offset

/-- An insertion-ordered counter (`collections.Counter` / `defaultdict(int)`
keep keys in insertion order): first increment of a key appends it. -/
def counterIncr : List (String × Nat) → String → List (String × Nat)
  | [], k => [(k, 1)]
  | p :: rest, k =>
    if p.1 = k then (p.1, p.2 + 1) :: rest else p :: counterIncr rest k

/-- The count stored for key `k` (0 when absent, as both `Counter` lookup and
`defaultdict(int)` read it). -/
def counterGet (m : List (String × Nat)) (k : String) : Nat :=
  match m.find? (fun p => p.1 = k) with
  | some p => p.2
  | none => 0

/-- One repository record, restricted to the fields `analyze_repos` reads.
Counts are absent-or-natural (the GitHub payload carries non-negative counts
or `null`); string fields are absent-or-string. -/
structure Repo where
  stargazers_count : Option Nat
  forks_count : Option Nat
  language : Option String
  pushed_at : Option String
  updated_at : Option String
deriving DecidableEq, Repr

/-- Python truthiness of `lang` in `if lang:`: `None` and `""` are falsy. -/
def truthyStr : Option String → Option String
  | none => none
  | some l => if l = "" then none else some l

/-- The running state of the fold inside `analyze_repos`, before
finalization: the local variables of the loop. -/
structure FoldState where
  total_stars : Nat
  total_forks : Nat
  languages : List (String × Nat)
  last_pushed_at : Option DT
  last_updated_at : Option DT
  monthly : List (String × Nat)
  updated_last_30d : Nat
  updated_last_90d : Nat
deriving DecidableEq, Repr

/-- The state before the first record. -/
def initState : FoldState :=
  ⟨0, 0, [], none, none, [], 0, 0⟩

/-- `max(old, candidate)` update of a most-recent timestamp: replaced exactly
when the new instant is strictly greater. -/
def updateLatest (old : Option DT) : Option DT → Option DT
  | none => old
  | some t =>
    match old with
    | none => some t
    | some q => if epochSeconds t > epochSeconds q then some t else some q

/-- The body of the `for repo in repos:` loop of `analyze_repos`.
`since_days` and `now` (seconds since epoch of `datetime.now(timezone.utc)`,
taken as one instant for the whole fold) parametrise the two rolling
windows: cutoffs `now - since_days` days and `now - 30` days. -/
def foldStep (since_days now : Int) (s : FoldState) (r : Repo) : FoldState :=
  let updated := iso_to_dt r.updated_at
  { total_stars := s.total_stars + r.stargazers_count.getD 0
    total_forks := s.total_forks + r.forks_count.getD 0
    languages :=
      match truthyStr r.language with
      | some l => counterIncr s.languages l
      | none => s.languages
    last_pushed_at := updateLatest s.last_pushed_at (iso_to_dt r.pushed_at)
    last_updated_at := updateLatest s.last_updated_at updated
    monthly :=
      match updated with
      | some u => counterIncr s.monthly (ymKey u)
      | none => s.monthly
    updated_last_30d :=
      match updated with
      | some u =>
        if epochSeconds u ≥ now - 30 * 86400 then s.updated_last_30d + 1
        else s.updated_last_30d
      | none => s.updated_last_30d
    updated_last_90d :=
      match updated with
      | some u =>
        if epochSeconds u ≥ now - since_days * 86400 then s.updated_last_90d + 1
        else s.updated_last_90d
      | none => s.updated_last_90d }

/-- The whole fold over the record list. -/
def foldRepos (repos : List Repo) (since_days now : Int) : FoldState :=
  repos.foldl (foldStep since_days now) initState

/-- `a.2 ≥ b.2`: the stable descending-count order of
`Counter.most_common()` (CPython: `sorted(items, key=count, reverse=True)`,
a stable sort of the insertion-ordered items; `List.insertionSort` with this
relation realises exactly that stable sort). -/
abbrev countDescR (a b : String × Nat) : Prop :=
  b.2 ≤ a.2

/-- Codepoint-lexicographic `≤` on char lists: Python string comparison. -/
def charsLe : List Char → List Char → Bool
  | [], _ => true
  | _ :: _, [] => false
  | a :: as, b :: bs => if a = b then charsLe as bs else decide (a < b)

/-- Key-ascending order of `sorted(monthly_update_counts.items())` (keys are
distinct, so the tuple comparison is decided by the keys). -/
abbrev keyAscR (a b : String × Nat) : Prop :=
  charsLe a.1.data b.1.data = true

/-- The finalized metrics dictionary of `analyze_repos`. -/
structure MetricsSummary where
  repo_count : Nat
  total_stars : Nat
  total_forks : Nat
  languages : List (String × Nat)
  updated_last_30d : Nat
  updated_last_90d : Nat
  last_pushed_at : Option String
  last_updated_at : Option String
  monthly_update_counts : List (String × Nat)
deriving DecidableEq, Repr

/-- The languages the fold counts, in record order: the truthy `language`
fields of the records.  Its distinct members in order of first occurrence are
exactly the insertion (first-seen) order of the language counter. -/
def langList (rs : List Repo) : List String :=
  rs.filterMap (fun r => truthyStr r.language)

/-- The counter a key list folds into, starting empty. -/
def counterOf (ks : List String) : List (String × Nat) :=
  ks.foldl counterIncr []

/-- Pointwise order on tracked most-recent timestamps: `none` (nothing seen
yet) is below everything, and two instants compare as `datetime` does. -/
def optionDTLe : Option DT → Option DT → Prop
  | none, _ => True
  | some _, none => False
  | some a, some b => epochSeconds a ≤ epochSeconds b

instance : IsTotal (String × Nat) countDescR :=
  ⟨fun a b => Nat.le_total b.2 a.2⟩

instance : IsTrans (String × Nat) countDescR :=
  ⟨fun _ _ _ h1 h2 => Nat.le_trans h2 h1⟩

instance : IsTotal (String × Nat) keyAscR := by
  constructor
  intro x y
  show charsLe x.1.data y.1.data = true ∨ charsLe y.1.data x.1.data = true
  generalize x.1.data = as
  generalize y.1.data = bs
  induction as generalizing bs with
  | nil => exact Or.inl rfl
  | cons a as ih =>
    cases bs with
    | nil => exact Or.inr rfl
    | cons b bs =>
      by_cases hab : a = b
      · subst hab
        rcases ih bs with h | h
        · left; simpa [charsLe] using h
        · right; simpa [charsLe] using h
      · have hba : b ≠ a := fun h => hab h.symm
        simp only [charsLe, if_neg hab, if_neg hba]
        rcases lt_trichotomy a b with h | h | h
        · left; exact decide_eq_true h
        · exact absurd h hab
        · right; exact decide_eq_true h

instance : IsTrans (String × Nat) keyAscR := by
  constructor
  intro x y z
  show charsLe x.1.data y.1.data = true → charsLe y.1.data z.1.data = true →
    charsLe x.1.data z.1.data = true
  generalize x.1.data = as
  generalize y.1.data = bs
  generalize z.1.data = cs
  induction as generalizing bs cs with
  | nil => intro _ _; rfl
  | cons a as ih =>
    intro h1 h2
    cases bs with
    | nil => simp [charsLe] at h1
    | cons b bs =>
      cases cs with
      | nil => simp [charsLe] at h2
      | cons c cs =>
        by_cases hab : a = b <;> by_cases hbc : b = c
        · subst hab; subst hbc
          simp only [charsLe, if_pos rfl] at h1 h2 ⊢
          exact ih bs cs h1 h2
        · subst hab
          have hac : a ≠ c := hbc
          simp only [charsLe, if_pos rfl] at h1
          simp only [charsLe, if_neg hbc] at h2 ⊢
          exact h2
        · subst hbc
          have hac : a ≠ b := hab
          simp only [charsLe, if_neg hab] at h1 ⊢
          exact h1
        · simp only [charsLe, if_neg hab] at h1
          simp only [charsLe, if_neg hbc] at h2
          have hlt : a < c :=
            lt_trans (of_decide_eq_true h1) (of_decide_eq_true h2)
          have hac : a ≠ c := ne_of_lt hlt
          simp only [charsLe, if_neg hac]
          exact decide_eq_true hlt

/-- `analyze_repos(repos, since_days)` with the clock reading `now`:
run the fold, then emit the metrics dictionary —
`dict(languages.most_common())` as a stable descending-count sort,
`dict(sorted(monthly_update_counts.items()))` as a key-ascending sort, and
the most-recent timestamps via `isoformat`. -/
def analyze_repos (repos : List Repo) (since_days now : Int) : MetricsSummary :=
  let s := foldRepos repos since_days now
  { repo_count := repos.length
    total_stars := s.total_stars
    total_forks := s.total_forks
    languages := List.insertionSort countDescR s.languages
    updated_last_30d := s.updated_last_30d
    updated_last_90d := s.updated_last_90d
    last_pushed_at := s.last_pushed_at.map isoformat
    last_updated_at := s.last_updated_at.map isoformat
    monthly_update_counts := List.insertionSort keyAscR s.monthly }

/-! ## Concrete data for counterexamples and witnesses -/

/-- A successful response whose header map has only the lowercase `link`
key. -/
def lowerLinkScript : Nat → Outcome Unit :=
  fun _ => .ok () [("link", "v")]

/-- A successful first response with an uppercase header key. -/
def jsonOkScript : Nat → Outcome Nat :=
  fun _ => .ok 42 [("Content-Type", "application/json")]

/-- A two-page server: the first page carries records 1, 2 and a `rel="next"`
link to `https://x/p2`; the second page carries record 3 and no Link
header. -/
def twoPageServer : String → PageResp Nat :=
  fun u =>
    if u = firstPageUrl "alice" then
      ⟨.arr [1, 2], [("Link", "<https://x/p2>; rel=\"next\"")]⟩
    else if u = "https://x/p2" then
      ⟨.arr [3], [("Content-Type", "application/json")]⟩
    else
      ⟨.notArr, []⟩

/-- A record carrying only an `updated_at` timestamp. -/
def recUpdated (u : String) : Repo :=
  ⟨none, none, none, none, some u⟩

/-- A record carrying only a language. -/
def recLang (l : String) : Repo :=
  ⟨none, none, some l, none, none⟩

/-- The three records of the month-bucket scenario. -/
def monthScenario : List Repo :=
  [recUpdated "2024-01-15T00:00:00Z", recUpdated "2024-01-20T00:00:00Z",
   recUpdated "2024-02-01T00:00:00Z"]

/-! # Theorems

First the step equations of the executor's attempt loop, then the claims
about it; then the fetcher, then the aggregator. -/

theorem httpAttempts_exhausted {β : Type} {script : Nat → Outcome β}
    {now : Nat → Int} {retries attempt : Nat} {e : HErr}
    {sleeps : List SleepEvt} :
    httpAttempts script now retries 0 attempt (some e) sleeps =
      (.failure e, sleeps, attempt) := by
  simp [httpAttempts]

theorem httpAttempts_ok {β : Type} {script : Nat → Outcome β}
    {now : Nat → Int} {retries remaining attempt : Nat} {lastErr : Option HErr}
    {sleeps : List SleepEvt} {body : β} {hdrs : List (String × String)}
    (h : script attempt = .ok body hdrs) :
    httpAttempts script now retries (remaining + 1) attempt lastErr sleeps =
      (.success body hdrs, sleeps, attempt + 1) := by
  simp [httpAttempts, h]

theorem httpAttempts_rate {β : Type} {script : Nat → Outcome β}
    {now : Nat → Int} {retries remaining attempt : Nat} {lastErr : Option HErr}
    {sleeps : List SleepEvt} {s : String}
    (h : script attempt = .httpErr 403 (some s)) (hd : isDigitString s = true) :
    httpAttempts script now retries (remaining + 1) attempt lastErr sleeps =
      httpAttempts script now retries remaining (attempt + 1)
        (some (.http 403 (some s))) (sleeps ++ [rateSleep now s attempt]) := by
  simp [httpAttempts, h, resetDigit, hd, rateSleep]

theorem httpAttempts_5xx_retry {β : Type} {script : Nat → Outcome β}
    {now : Nat → Int} {retries remaining attempt : Nat} {lastErr : Option HErr}
    {sleeps : List SleepEvt} {code : Nat} {reset : Option String}
    (h : script attempt = .httpErr code reset)
    (h5 : 500 ≤ code) (h6 : code < 600) (ha : attempt < retries) :
    httpAttempts script now retries (remaining + 1) attempt lastErr sleeps =
      httpAttempts script now retries remaining (attempt + 1)
        (some (.http code reset)) (sleeps ++ [.backoff (attempt + 1)]) := by
  have h403 : ¬(code = 403 ∧ (resetDigit reset).isSome = true) := by
    rintro ⟨hc, -⟩; omega
  simp only [httpAttempts, h]
  rw [if_neg h403, if_pos ⟨h5, h6, ha⟩]

theorem httpAttempts_5xx_exhaust {β : Type} {script : Nat → Outcome β}
    {now : Nat → Int} {retries remaining attempt : Nat} {lastErr : Option HErr}
    {sleeps : List SleepEvt} {code : Nat} {reset : Option String}
    (h : script attempt = .httpErr code reset)
    (h5 : 500 ≤ code) (h6 : code < 600) (ha : ¬attempt < retries) :
    httpAttempts script now retries (remaining + 1) attempt lastErr sleeps =
      (.failure (.http code reset), sleeps, attempt + 1) := by
  have h403 : ¬(code = 403 ∧ (resetDigit reset).isSome = true) := by
    rintro ⟨hc, -⟩; omega
  have hn : ¬(500 ≤ code ∧ code < 600 ∧ attempt < retries) := by
    rintro ⟨-, -, hlt⟩; exact ha hlt
  simp only [httpAttempts, h]
  rw [if_neg h403, if_neg hn]

/-- When every attempt in the window `[attempt, attempt + remaining]` is
answered by a 403 with a numeric reset header, the loop sleeps once per
attempt and exhausts itself, surfacing the last 403 via `raise last_err`. -/
theorem httpAttempts_all_rate {β : Type} (script : Nat → Outcome β)
    (now : Nat → Int) (retries : Nat) (rs : Nat → String) :
    ∀ (remaining attempt : Nat) (lastErr : Option HErr) (sleeps : List SleepEvt),
      (∀ i, attempt ≤ i → i ≤ attempt + remaining →
        script i = .httpErr 403 (some (rs i)) ∧ isDigitString (rs i) = true) →
      httpAttempts script now retries (remaining + 1) attempt lastErr sleeps =
        (.failure (.http 403 (some (rs (attempt + remaining)))),
         sleeps ++ (List.range' attempt (remaining + 1)).map
           (fun i => rateSleep now (rs i) i),
         attempt + remaining + 1)
  | 0, attempt, lastErr, sleeps, h => by
    obtain ⟨hs, hd⟩ := h attempt (Nat.le_refl _) (Nat.le_add_right _ _)
    rw [httpAttempts_rate hs hd, httpAttempts_exhausted]
    simp
  | remaining + 1, attempt, lastErr, sleeps, h => by
    obtain ⟨hs, hd⟩ := h attempt (Nat.le_refl _) (Nat.le_add_right _ _)
    rw [httpAttempts_rate hs hd,
      httpAttempts_all_rate script now retries rs remaining (attempt + 1)
        (some (.http 403 (some (rs attempt)))) (sleeps ++ [rateSleep now (rs attempt) attempt])
        (fun i h1 h2 => h i (by omega) (by omega))]
    have harith : attempt + 1 + remaining = attempt + (remaining + 1) := by omega
    simp only [harith, List.append_assoc, List.singleton_append]
    rw [List.range'_succ, List.map_cons, List.range'_succ, List.map_cons,
      List.range'_succ, List.map_cons]

/-- C1, corrected form: on HTTP 403 with a present numeric rate-limit-reset
header the executor does sleep `min(max(0, reset − now) + 1, 60)` seconds and
retry the same URL, but each such retry consumes one attempt of the shared
budget of `retries + 1` total attempts (the rate-limit branch `continue`s
inside `for attempt in range(retries + 1)`), so `retries + 1` consecutive
rate-limited responses exhaust the loop and the last 403 error is raised to
the caller via `raise last_err`. -/
theorem C1_rate_limit_consumes_budget {β : Type} (script : Nat → Outcome β)
    (now : Nat → Int) (retries : Nat) (rs : Nat → String)
    (h : ∀ i, i ≤ retries →
      script i = .httpErr 403 (some (rs i)) ∧ isDigitString (rs i) = true) :
    http_get_json script now retries =
      (.failure (.http 403 (some (rs retries))),
       (List.range' 0 (retries + 1)).map (fun i => rateSleep now (rs i) i),
       retries + 1) := by
  have := httpAttempts_all_rate script now retries rs retries 0 none []
    (fun i h1 h2 => h i (by omega))
  simpa [http_get_json] using this

/-- C1, counterexample to the claim as stated: four consecutive rate-limited
403 responses (numeric reset header `"100"`, clock at 0) exhaust the default
budget of `3 + 1` attempts — after four capped sleeps the 403 is surfaced to
the caller as a failure, instead of being retried indefinitely. -/
theorem C1_counterexample :
    http_get_json all403Script (fun _ => (0 : Int)) 3 =
      (.failure (.http 403 (some "100")),
       [.rate 60, .rate 60, .rate 60, .rate 60], 4) := by
  decide

/-- C1 witness: the corrected statement applied to the concrete all-403
script with budget `retries = 2`, reset epoch 100 and clock 0: three sleeps
of 60 seconds (the cap), then the 403 surfaces. -/
theorem C1_witness :
    http_get_json all403Script (fun _ => (0 : Int)) 2 =
      (.failure (.http 403 (some "100")), [.rate 60, .rate 60, .rate 60], 3) := by
  rw [C1_rate_limit_consumes_budget all403Script (fun _ => (0 : Int)) 2
    (fun _ => "100") (fun i _ => ⟨rfl, rfl⟩)]
  decide

/-- When every attempt from `attempt` through the budget's last attempt
`retries` is answered by a 5xx response, the loop backs off linearly between
attempts and the last attempt re-raises its own error. -/
theorem httpAttempts_all_5xx {β : Type} (script : Nat → Outcome β)
    (now : Nat → Int) (retries : Nat) (c : Nat → Nat) (r : Nat → Option String) :
    ∀ (remaining attempt : Nat) (lastErr : Option HErr) (sleeps : List SleepEvt),
      attempt + remaining = retries →
      (∀ i, attempt ≤ i → i ≤ retries →
        script i = .httpErr (c i) (r i) ∧ 500 ≤ c i ∧ c i < 600) →
      httpAttempts script now retries (remaining + 1) attempt lastErr sleeps =
        (.failure (.http (c retries) (r retries)),
         sleeps ++ (List.range' attempt remaining).map (fun i => .backoff (i + 1)),
         retries + 1)
  | 0, attempt, lastErr, sleeps, he, h => by
    obtain ⟨hs, h5, h6⟩ := h attempt (Nat.le_refl _) (by omega)
    have ha : attempt = retries := by omega
    subst ha
    rw [httpAttempts_5xx_exhaust hs h5 h6 (by omega)]
    simp
  | remaining + 1, attempt, lastErr, sleeps, he, h => by
    obtain ⟨hs, h5, h6⟩ := h attempt (Nat.le_refl _) (by omega)
    rw [httpAttempts_5xx_retry hs h5 h6 (by omega)]
    have IH := httpAttempts_all_5xx script now retries c r remaining (attempt + 1)
      (some (.http (c attempt) (r attempt)))
      (sleeps ++ [SleepEvt.backoff (attempt + 1)])
      (by omega) (fun i h1 h2 => h i (by omega) h2)
    rw [IH, List.range'_succ, List.map_cons]
    simp

/-- C3: on HTTP 5xx the executor retries with linear backoff
(`sleep_seconds * attempt_number`, recorded as `backoff attempt_number`) up
to the budget of 3 additional attempts, re-raising the last 5xx once the
budget is exhausted; four consecutive 5xx responses surface the fourth as
the failure after backoffs 1·base, 2·base, 3·base, while two 503s followed
by a 200 succeed with the 200 body after backoffs 1·base, 2·base. -/
theorem C3_5xx_retry_budget :
    (∀ (β : Type) (script : Nat → Outcome β) (now : Nat → Int)
      (c : Nat → Nat) (r : Nat → Option String),
      (∀ i, i ≤ 3 → script i = .httpErr (c i) (r i) ∧ 500 ≤ c i ∧ c i < 600) →
      http_get_json script now 3 =
        (.failure (.http (c 3) (r 3)),
         [.backoff 1, .backoff 2, .backoff 3], 4)) ∧
    (∀ (β : Type) (script : Nat → Outcome β) (now : Nat → Int)
      (c0 c1 : Nat) (r0 r1 : Option String) (body : β)
      (hdrs : List (String × String)),
      script 0 = .httpErr c0 r0 → 500 ≤ c0 → c0 < 600 →
      script 1 = .httpErr c1 r1 → 500 ≤ c1 → c1 < 600 →
      script 2 = .ok body hdrs →
      http_get_json script now 3 =
        (.success body hdrs, [.backoff 1, .backoff 2], 3)) := by
  constructor
  · intro β script now c r h
    have := httpAttempts_all_5xx script now 3 c r 3 0 none [] (by omega)
      (fun i h1 h2 => h i h2)
    simpa [http_get_json] using this
  · intro β script now c0 c1 r0 r1 body hdrs h0 h50 h60 h1 h51 h61 h2
    unfold http_get_json
    rw [httpAttempts_5xx_retry h0 h50 h60 (by omega),
      httpAttempts_5xx_retry h1 h51 h61 (by omega),
      httpAttempts_ok h2]
    simp

/-- C3 witness: both parts at concrete scripts — four 503s surface the 503
after backoffs 1, 2, 3; two 503s then a 200 with body 5 succeed after
backoffs 1, 2. -/
theorem C3_witness :
    http_get_json all503Script (fun _ => (0 : Int)) 3 =
      (.failure (.http 503 none), [.backoff 1, .backoff 2, .backoff 3], 4) ∧
    http_get_json (twoThen200Script 5) (fun _ => (0 : Int)) 3 =
      (.success 5 [("X-Served-By", "s")], [.backoff 1, .backoff 2], 3) :=
  ⟨C3_5xx_retry_budget.1 Nat all503Script (fun _ => 0) (fun _ => 503)
      (fun _ => none) (fun i _ => ⟨rfl, by norm_num, by norm_num⟩),
   C3_5xx_retry_budget.2 Nat (twoThen200Script 5) (fun _ => 0) 503 503 none none
      5 [("X-Served-By", "s")] rfl (by omega) (by omega) rfl (by omega) (by omega) rfl⟩

/-- C8, counterexample to the claim as stated: a successful response whose
header arrives with the lowercase key `link` is returned as a plain
(case-sensitive) map — looking up `"link"` finds the value while looking up
`"Link"` does not, so header lookup does depend on the letter case of the
name. -/
theorem C8_counterexample :
    (http_get_json lowerLinkScript (fun _ => (0 : Int)) 3).1 =
      .success () [("link", "v")] ∧
    dictGet [("link", "v")] "link" = some "v" ∧
    dictGet [("link", "v")] "Link" = none := by
  decide

/-- C8, corrected form: on a 2xx response with parseable JSON body the
executor returns the decoded body together with the response-header map
copied verbatim (`{k: v for k, v in resp.headers.items()}`), whose lookup is
case-sensitive; the pagination layer compensates for the two spellings it
expects by reading `Link` and then `link`. -/
theorem C8_success_returns_verbatim_headers {β : Type} (script : Nat → Outcome β)
    (now : Nat → Int) (retries : Nat) (body : β) (hdrs : List (String × String))
    (h : script 0 = .ok body hdrs) :
    http_get_json script now retries = (.success body hdrs, [], 1) ∧
    (∀ v : String, v ≠ "" →
      linkHeaderOf [("Link", v)] = some v ∧ linkHeaderOf [("link", v)] = some v) := by
  constructor
  · unfold http_get_json
    rw [httpAttempts_ok h]
  · intro v hv
    constructor
    · simp [linkHeaderOf, dictGet, pyOrStr, hv]
    · simp [linkHeaderOf, dictGet, pyOrStr, hv]

/-- C8 witness: the corrected statement at a concrete script, and the Link
compensation at the value `"x"`. -/
theorem C8_witness :
    http_get_json jsonOkScript (fun _ => (0 : Int)) 3 =
      (.success 42 [("Content-Type", "application/json")], [], 1) ∧
    linkHeaderOf [("link", "x")] = some "x" :=
  ⟨(C8_success_returns_verbatim_headers jsonOkScript (fun _ => 0) 3 42
      [("Content-Type", "application/json")] rfl).1,
   ((C8_success_returns_verbatim_headers jsonOkScript (fun _ => 0) 3 42
      [("Content-Type", "application/json")] rfl).2 "x" (by decide)).2⟩

theorem paginateAux_none {α : Type} {server : String → PageResp α} {n : Nat} :
    paginateAux server n none = ([], [], true) := by
  cases n <;> simp [paginateAux]

theorem paginateAux_step_arr {α : Type} {server : String → PageResp α}
    {u : String} {items : List α} {hdrs : List (String × String)} {n : Nat}
    (hu : u ≠ "") (h : server u = ⟨.arr items, hdrs⟩) :
    paginateAux server (n + 1) (some u) =
      (items ++ (paginateAux server n (findNextUrl hdrs)).1,
       u :: (paginateAux server n (findNextUrl hdrs)).2.1,
       (paginateAux server n (findNextUrl hdrs)).2.2) := by
  simp only [paginateAux]
  rw [if_neg hu, h]

theorem paginateAux_step_notArr {α : Type} {server : String → PageResp α}
    {u : String} {hdrs : List (String × String)} {n : Nat}
    (hu : u ≠ "") (h : server u = ⟨.notArr, hdrs⟩) :
    paginateAux server (n + 1) (some u) = ([], [u], true) := by
  simp only [paginateAux]
  rw [if_neg hu, h]

/-- C2, counterexample to the claim as stated: against a server whose every
page links `rel="next"` back to the same URL `https://x/p1`, the fetcher
requests that URL again (and again) — the second and third requested URLs
repeat — and no failure of any kind is raised; the loop just keeps going
(termination flag `false` after three pages). -/
theorem C2_counterexample :
    paginate_repos selfLoopServer "alice" 3 =
      ([7, 7, 7], [firstPageUrl "alice", "https://x/p1", "https://x/p1"],
       false) := by
  decide

/-- C2, corrected form: `paginate_repos` has no repeated-URL (cursor-must-
change) protection at all — there is no `ProtocolError` anywhere in the
loop.  A next-page URL that repeats is simply requested again: against the
self-linking server, `fuel` loop iterations perform `fuel` requests of the
same URL and yield `fuel` copies of the page's record, and the loop never
terminates on its own (flag `false` for every fuel). -/
theorem C2_no_cursor_protection : ∀ fuel : Nat,
    paginateAux selfLoopServer fuel (some "https://x/p1") =
      (List.replicate fuel 7, List.replicate fuel "https://x/p1", false)
  | 0 => by decide
  | fuel + 1 => by
    have hnext : findNextUrl [("Link", "<https://x/p1>; rel=\"next\"")] =
        some "https://x/p1" := by decide
    have h := C2_no_cursor_protection fuel
    simp only [paginateAux, selfLoopServer]
    rw [if_neg (show ¬("https://x/p1" = "") by decide)]
    rw [hnext, h]
    simp [List.replicate_succ]

/-- C5: the fetcher requests a next page exactly when the Link header yields
a `rel="next"` URL — a first page whose header carries one and a second page
whose header carries none produce exactly the two page fetches, with the
records concatenated in page order; a page with no next link ends the
stream, and a page whose body is not an array ends the stream silently
(records so far, no error). -/
theorem C5_pagination_follows_next :
    (∀ (α : Type) (server : String → PageResp α) (u1 u2 : String)
      (items1 items2 : List α) (hdrs1 hdrs2 : List (String × String)) (n : Nat),
      u1 ≠ "" → u2 ≠ "" →
      server u1 = ⟨.arr items1, hdrs1⟩ → findNextUrl hdrs1 = some u2 →
      server u2 = ⟨.arr items2, hdrs2⟩ → findNextUrl hdrs2 = none →
      paginateAux server (n + 2) (some u1) =
        (items1 ++ items2, [u1, u2], true)) ∧
    (∀ (α : Type) (server : String → PageResp α) (u : String)
      (items : List α) (hdrs : List (String × String)) (n : Nat),
      u ≠ "" → server u = ⟨.arr items, hdrs⟩ → findNextUrl hdrs = none →
      paginateAux server (n + 1) (some u) = (items, [u], true)) ∧
    (∀ (α : Type) (server : String → PageResp α) (u : String)
      (hdrs : List (String × String)) (n : Nat),
      u ≠ "" → server u = ⟨.notArr, hdrs⟩ →
      paginateAux server (n + 1) (some u) = ([], [u], true)) := by
  refine ⟨?_, ?_, ?_⟩
  · intro α server u1 u2 items1 items2 hdrs1 hdrs2 n hu1 hu2 h1 hn1 h2 hn2
    rw [paginateAux_step_arr hu1 h1, hn1, paginateAux_step_arr hu2 h2, hn2,
      paginateAux_none]
    simp
  · intro α server u items hdrs n hu h hn
    rw [paginateAux_step_arr hu h, hn, paginateAux_none]
    simp
  · intro α server u hdrs n hu h
    exact paginateAux_step_notArr hu h

/-- C5 witness: the two-page scenario at the concrete two-page server — the
run requests exactly the first-page URL and `https://x/p2` and yields the
pages' records concatenated in page order. -/
theorem C5_witness :
    paginateAux twoPageServer 2 (some (firstPageUrl "alice")) =
      ([1, 2, 3], [firstPageUrl "alice", "https://x/p2"], true) :=
  C5_pagination_follows_next.1 Nat twoPageServer (firstPageUrl "alice")
    "https://x/p2" [1, 2] [3] [("Link", "<https://x/p2>; rel=\"next\"")]
    [("Content-Type", "application/json")] 0 (by decide) (by decide) rfl
    (by decide) rfl (by decide)

/-! ### Counter lemmas -/

theorem counterGet_cons {p : String × Nat} {m : List (String × Nat)}
    {k : String} :
    counterGet (p :: m) k = if p.1 = k then p.2 else counterGet m k := by
  by_cases h : p.1 = k <;> simp [counterGet, List.find?, h]

theorem counterGet_incr_self (m : List (String × Nat)) (k : String) :
    counterGet (counterIncr m k) k = counterGet m k + 1 := by
  induction m with
  | nil => simp [counterIncr, counterGet_cons, counterGet]
  | cons p rest ih =>
    by_cases h : p.1 = k
    · simp [counterIncr, h, counterGet_cons]
    · simp [counterIncr, h, counterGet_cons, ih]

theorem counterGet_incr_ne (m : List (String × Nat)) {k k' : String}
    (h : k' ≠ k) :
    counterGet (counterIncr m k) k' = counterGet m k' := by
  induction m with
  | nil =>
    have h' : k ≠ k' := Ne.symm h
    simp [counterIncr, counterGet_cons, counterGet, h']
  | cons p rest ih =>
    by_cases hp : p.1 = k
    · subst hp
      have h' : p.1 ≠ k' := Ne.symm h
      simp [counterIncr, counterGet_cons, h']
    · simp [counterIncr, hp, counterGet_cons, ih]

theorem counterGet_incr_le (m : List (String × Nat)) (k k' : String) :
    counterGet m k' ≤ counterGet (counterIncr m k) k' := by
  by_cases h : k' = k
  · subst h; rw [counterGet_incr_self]; omega
  · rw [counterGet_incr_ne m h]

/-! ### C10 and C9 -/

/-- C10: the empty record list folds to the all-empty summary — zero counts,
empty language and month tables, zero rolling counters and `null` most-recent
timestamps. -/
theorem C10_empty_fold (d n : Int) :
    analyze_repos [] d n =
      ⟨0, 0, 0, [], 0, 0, none, none, []⟩ :=
  rfl

/-- C9: the fold is a pure function of the record list (given one clock
reading and window, as `fold(recordStream, sinceDays, now)` is specified):
two runs over the same list give bit-identical summaries. -/
theorem C9_fold_idempotent (rs1 rs2 : List Repo) (d n : Int)
    (h : rs1 = rs2) :
    analyze_repos rs1 d n = analyze_repos rs2 d n := by
  rw [h]

/-- C9 witness: two runs over the same concrete two-record list coincide. -/
theorem C9_witness :
    analyze_repos [recLang "py", recUpdated "2024-01-15T00:00:00Z"] 90 0 =
      analyze_repos [recLang "py", recUpdated "2024-01-15T00:00:00Z"] 90 0 :=
  C9_fold_idempotent [recLang "py", recUpdated "2024-01-15T00:00:00Z"]
    [recLang "py", recUpdated "2024-01-15T00:00:00Z"] 90 0 rfl

/-! ### C4: fold invariants -/

theorem optionDTLe_updateLatest (old x : Option DT) :
    optionDTLe old (updateLatest old x) := by
  cases x with
  | none => cases old <;> simp [updateLatest, optionDTLe]
  | some t =>
    cases old with
    | none => simp [updateLatest, optionDTLe]
    | some q =>
      simp only [updateLatest]
      by_cases h : epochSeconds t > epochSeconds q
      · rw [if_pos h]
        show epochSeconds q ≤ epochSeconds t
        omega
      · rw [if_neg h]
        show epochSeconds q ≤ epochSeconds q
        omega

/-- C4: `repo_count` equals the number of records folded (and folding one
more record is one more step), and every counter of the running state —
the two totals, each language frequency, each month bucket, both rolling
counters — is monotonically non-decreasing under a fold step, while the
tracked most-recent pushed/updated timestamps only move up. -/
theorem C4_fold_invariants :
    (∀ (rs : List Repo) (d n : Int),
      (analyze_repos rs d n).repo_count = rs.length) ∧
    (∀ (d n : Int) (rs : List Repo) (r : Repo),
      foldRepos (rs ++ [r]) d n = foldStep d n (foldRepos rs d n) r) ∧
    (∀ (d n : Int) (s : FoldState) (r : Repo),
      s.total_stars ≤ (foldStep d n s r).total_stars ∧
      s.total_forks ≤ (foldStep d n s r).total_forks ∧
      (∀ k, counterGet s.languages k ≤ counterGet (foldStep d n s r).languages k) ∧
      (∀ k, counterGet s.monthly k ≤ counterGet (foldStep d n s r).monthly k) ∧
      s.updated_last_30d ≤ (foldStep d n s r).updated_last_30d ∧
      s.updated_last_90d ≤ (foldStep d n s r).updated_last_90d ∧
      optionDTLe s.last_pushed_at (foldStep d n s r).last_pushed_at ∧
      optionDTLe s.last_updated_at (foldStep d n s r).last_updated_at) := by
  refine ⟨fun rs d n => rfl, fun d n rs r => by simp [foldRepos, List.foldl_append], ?_⟩
  intro d n s r
  refine ⟨by simp [foldStep], by simp [foldStep], ?_, ?_, ?_, ?_, ?_, ?_⟩
  · intro k
    simp only [foldStep]
    cases truthyStr r.language with
    | none => exact Nat.le_refl _
    | some l => exact counterGet_incr_le _ _ _
  · intro k
    simp only [foldStep]
    cases iso_to_dt r.updated_at with
    | none => exact Nat.le_refl _
    | some u => exact counterGet_incr_le _ _ _
  · simp only [foldStep]
    cases iso_to_dt r.updated_at with
    | none => exact Nat.le_refl _
    | some u =>
      show s.updated_last_30d ≤
        if epochSeconds u ≥ n - 30 * 86400 then s.updated_last_30d + 1
        else s.updated_last_30d
      by_cases h : epochSeconds u ≥ n - 30 * 86400
      · rw [if_pos h]; omega
      · rw [if_neg h]
  · simp only [foldStep]
    cases iso_to_dt r.updated_at with
    | none => exact Nat.le_refl _
    | some u =>
      show s.updated_last_90d ≤
        if epochSeconds u ≥ n - d * 86400 then s.updated_last_90d + 1
        else s.updated_last_90d
      by_cases h : epochSeconds u ≥ n - d * 86400
      · rw [if_pos h]; omega
      · rw [if_neg h]
  · exact optionDTLe_updateLatest _ _
  · exact optionDTLe_updateLatest _ _

/-! ### C7: month buckets -/

/-- C7: a record whose `updated_at` parses bumps exactly the month bucket
keyed `"%Y-%m"` by that timestamp's year and month; the emitted month-bucket
table is sorted ascending by key; and the three-record scenario of the spec
yields exactly `{"2024-01": 2, "2024-02": 1}`. -/
theorem C7_month_buckets :
    (∀ (d n : Int) (s : FoldState) (r : Repo) (u : DT),
      iso_to_dt r.updated_at = some u →
      counterGet (foldStep d n s r).monthly (ymKey u) =
        counterGet s.monthly (ymKey u) + 1) ∧
    (∀ (rs : List Repo) (d n : Int),
      (analyze_repos rs d n).monthly_update_counts.Pairwise keyAscR) ∧
    (analyze_repos monthScenario 90 0).monthly_update_counts =
      [("2024-01", 2), ("2024-02", 1)] := by
  refine ⟨?_, ?_, by decide⟩
  · intro d n s r u h
    show counterGet
      (match iso_to_dt r.updated_at with
       | some u => counterIncr s.monthly (ymKey u)
       | none => s.monthly) (ymKey u) = counterGet s.monthly (ymKey u) + 1
    rw [h]
    exact counterGet_incr_self _ _
  · intro rs d n
    exact List.sorted_insertionSort keyAscR _

/-- C7 witness: the step property at the record
`updated_at = "2024-01-15T00:00:00Z"` starting from the empty state — the
bucket `"2024-01"` goes from 0 to 1. -/
theorem C7_witness :
    counterGet (foldStep 90 0 initState (recUpdated "2024-01-15T00:00:00Z")).monthly
        (ymKey ⟨2024, 1, 15, 0, 0, 0, 0⟩) =
      counterGet initState.monthly (ymKey ⟨2024, 1, 15, 0, 0, 0, 0⟩) + 1 :=
  C7_month_buckets.1 90 0 initState (recUpdated "2024-01-15T00:00:00Z")
    ⟨2024, 1, 15, 0, 0, 0, 0⟩ (by decide)

/-! ### C6: the language table -/

theorem truthyStr_ne_empty {x : Option String} {l : String}
    (h : truthyStr x = some l) : l ≠ "" := by
  cases x with
  | none => simp [truthyStr] at h
  | some s =>
    simp only [truthyStr] at h
    by_cases hs : s = ""
    · rw [if_pos hs] at h; cases h
    · rw [if_neg hs] at h
      exact (Option.some.inj h) ▸ hs

theorem counterIncr_cons_self {p : String × Nat} {rest : List (String × Nat)}
    {k : String} (hp : p.1 = k) :
    counterIncr (p :: rest) k = (p.1, p.2 + 1) :: rest := by
  simp [counterIncr, hp]

theorem counterIncr_cons_ne {p : String × Nat} {rest : List (String × Nat)}
    {k : String} (hp : p.1 ≠ k) :
    counterIncr (p :: rest) k = p :: counterIncr rest k := by
  simp [counterIncr, hp]

theorem counterIncr_keys_mem {m : List (String × Nat)} {k a : String} :
    a ∈ (counterIncr m k).map Prod.fst ↔ a ∈ m.map Prod.fst ∨ a = k := by
  induction m with
  | nil => simp [counterIncr]
  | cons p rest ih =>
    by_cases hp : p.1 = k
    · rw [counterIncr_cons_self hp]
      simp only [List.map_cons, List.mem_cons]
      constructor
      · exact fun h => Or.inl h
      · rintro (h | h)
        · exact h
        · subst h
          exact Or.inl hp.symm
    · rw [counterIncr_cons_ne hp]
      simp only [List.map_cons, List.mem_cons, ih]
      tauto

theorem counterIncr_keys_nodup {m : List (String × Nat)} {k : String}
    (h : (m.map Prod.fst).Nodup) :
    ((counterIncr m k).map Prod.fst).Nodup := by
  induction m with
  | nil => simp [counterIncr]
  | cons p rest ih =>
    rw [List.map_cons, List.nodup_cons] at h
    by_cases hp : p.1 = k
    · rw [counterIncr_cons_self hp]
      rw [List.map_cons, List.nodup_cons]
      exact ⟨h.1, h.2⟩
    · rw [counterIncr_cons_ne hp]
      rw [List.map_cons, List.nodup_cons]
      refine ⟨fun hmem => ?_, ih h.2⟩
      rcases counterIncr_keys_mem.mp hmem with h' | h'
      · exact h.1 h'
      · exact hp h'

theorem counterIncr_pos : ∀ (m : List (String × Nat)) (k : String),
    (∀ p ∈ m, 0 < p.2) → ∀ p ∈ counterIncr m k, 0 < p.2
  | [], k, _ => by
    intro p hp
    simp [counterIncr] at hp
    subst hp
    exact Nat.one_pos
  | q :: rest, k, h => by
    intro p hp
    by_cases hq : q.1 = k
    · rw [counterIncr_cons_self hq] at hp
      rcases List.mem_cons.mp hp with h' | h'
      · subst h'
        exact Nat.succ_pos _
      · exact h p (List.mem_cons_of_mem _ h')
    · rw [counterIncr_cons_ne hq] at hp
      rcases List.mem_cons.mp hp with h' | h'
      · exact h p (by rw [h']; exact List.mem_cons_self _ _)
      · exact counterIncr_pos rest k
          (fun p' hp' => h p' (List.mem_cons_of_mem _ hp')) p h'

theorem foldl_counterIncr_get : ∀ (ks : List String) (m : List (String × Nat))
    (l : String),
    counterGet (ks.foldl counterIncr m) l = counterGet m l + ks.count l
  | [], m, l => by simp
  | k :: ks, m, l => by
    simp only [List.foldl_cons]
    rw [foldl_counterIncr_get ks (counterIncr m k) l]
    by_cases h : l = k
    · subst h
      rw [counterGet_incr_self]
      simp [List.count_cons]
      omega
    · rw [counterGet_incr_ne m h]
      have : (k :: ks).count l = ks.count l := by
        simp [List.count_cons, h]
      rw [this]

theorem foldl_counterIncr_keys : ∀ (ks : List String) (m : List (String × Nat))
    (a : String),
    a ∈ (ks.foldl counterIncr m).map Prod.fst ↔ a ∈ m.map Prod.fst ∨ a ∈ ks
  | [], m, a => by simp
  | k :: ks, m, a => by
    simp only [List.foldl_cons]
    rw [foldl_counterIncr_keys ks (counterIncr m k) a, counterIncr_keys_mem,
      List.mem_cons]
    tauto

theorem foldl_counterIncr_nodup : ∀ (ks : List String) (m : List (String × Nat)),
    (m.map Prod.fst).Nodup → ((ks.foldl counterIncr m).map Prod.fst).Nodup
  | [], _, h => h
  | _ :: ks, _, h => foldl_counterIncr_nodup ks _ (counterIncr_keys_nodup h)

theorem foldl_counterIncr_pos : ∀ (ks : List String) (m : List (String × Nat)),
    (∀ p ∈ m, 0 < p.2) → ∀ p ∈ ks.foldl counterIncr m, 0 < p.2
  | [], _, h => h
  | k :: ks, m, h => foldl_counterIncr_pos ks _ (counterIncr_pos m k h)

theorem counterGet_of_mem : ∀ {m : List (String × Nat)},
    (m.map Prod.fst).Nodup → ∀ {l : String} {c : Nat},
    (l, c) ∈ m → counterGet m l = c := by
  intro m
  induction m with
  | nil => intro _ l c h; cases h
  | cons p rest ih =>
    intro hnd l c hmem
    rw [List.map_cons, List.nodup_cons] at hnd
    rw [counterGet_cons]
    rcases List.mem_cons.mp hmem with h | h
    · rw [← h]
      simp
    · have hl : l ∈ rest.map Prod.fst := by
        have := List.mem_map_of_mem Prod.fst h
        simpa using this
      have hne : p.1 ≠ l := fun e => hnd.1 (e ▸ hl)
      rw [if_neg hne]
      exact ih hnd.2 h

theorem exists_of_key_mem {m : List (String × Nat)} {l : String}
    (h : l ∈ m.map Prod.fst) : ∃ c, (l, c) ∈ m := by
  rcases List.mem_map.mp h with ⟨p, hp, he⟩
  refine ⟨p.2, ?_⟩
  have : (l, p.2) = p := by
    rw [← he]
  rw [this]
  exact hp

/-- Membership in the counter folded from `ks` characterises it: an entry
`(l, c)` is present exactly when `l` occurs in `ks` and `c` is its number of
occurrences. -/
theorem counterOf_mem_iff (ks : List String) (l : String) (c : Nat) :
    (l, c) ∈ counterOf ks ↔ (l ∈ ks ∧ c = ks.count l) := by
  have hnd : ((counterOf ks).map Prod.fst).Nodup :=
    foldl_counterIncr_nodup ks [] (by simp)
  have hget : counterGet (counterOf ks) l = ks.count l := by
    have := foldl_counterIncr_get ks [] l
    simpa [counterGet] using this
  constructor
  · intro h
    have h1 : l ∈ (counterOf ks).map Prod.fst := by
      have := List.mem_map_of_mem Prod.fst h
      simpa using this
    have h2 : l ∈ ks := by
      rcases (foldl_counterIncr_keys ks [] l).mp h1 with h' | h'
      · simp at h'
      · exact h'
    have h3 := counterGet_of_mem hnd h
    exact ⟨h2, by rw [← h3, hget]⟩
  · rintro ⟨h1, h2⟩
    have hk : l ∈ (counterOf ks).map Prod.fst :=
      (foldl_counterIncr_keys ks [] l).mpr (Or.inr h1)
    rcases exists_of_key_mem hk with ⟨c', hc⟩
    have hgc : counterGet (counterOf ks) l = c' := counterGet_of_mem hnd hc
    have : c' = c := by rw [← hgc, hget, ← h2]
    rw [← this] at h2 ⊢
    exact hc

theorem foldRepos_languages_aux (d n : Int) : ∀ (rs : List Repo) (s : FoldState),
    (List.foldl (foldStep d n) s rs).languages =
      (langList rs).foldl counterIncr s.languages
  | [], _ => rfl
  | r :: rs, s => by
    simp only [List.foldl_cons, langList, List.filterMap_cons]
    cases htr : truthyStr r.language with
    | none =>
      rw [foldRepos_languages_aux d n rs (foldStep d n s r)]
      simp only [langList]
      congr 1
      simp [foldStep, htr]
    | some l =>
      rw [foldRepos_languages_aux d n rs (foldStep d n s r)]
      simp only [langList, List.foldl_cons]
      congr 1
      simp [foldStep, htr]

theorem foldRepos_languages (rs : List Repo) (d n : Int) :
    (foldRepos rs d n).languages = counterOf (langList rs) :=
  foldRepos_languages_aux d n rs initState

theorem langList_count (rs : List Repo) {l : String} (hl : l ≠ "") :
    (langList rs).count l =
      rs.countP (fun r => decide (r.language = some l)) := by
  induction rs with
  | nil => simp [langList]
  | cons r rs ih =>
    rw [List.countP_cons]
    cases hr : r.language with
    | none =>
      have ht : truthyStr r.language = none := by simp [truthyStr, hr]
      simp only [langList, List.filterMap_cons, ht]
      rw [show List.filterMap (fun r => truthyStr r.language) rs = langList rs
        from rfl, ih]
      simp
    | some x =>
      by_cases hx : x = ""
      · subst hx
        have ht : truthyStr r.language = none := by simp [truthyStr, hr]
        simp only [langList, List.filterMap_cons, ht]
        rw [show List.filterMap (fun r => truthyStr r.language) rs = langList rs
          from rfl, ih]
        have hdec : decide (some "" = some l) = false := by
          simp only [decide_eq_false_iff_not]
          intro e
          exact hl (Option.some.inj e).symm
        rw [hdec]
        simp
      · have ht : truthyStr r.language = some x := by simp [truthyStr, hr, hx]
        simp only [langList, List.filterMap_cons, ht]
        rw [List.count_cons,
          show List.filterMap (fun r => truthyStr r.language) rs = langList rs
            from rfl, ih]
        by_cases hxl : x = l
        · subst hxl
          simp
        · simp [hxl]

/-- C6: the finalized language table holds exactly the non-empty languages of
the records, each with its exact occurrence count (an independent recount of
the same input); it is sorted by descending frequency; and entries with equal
counts keep the order of the fold's insertion-ordered counter, whose key
order is first-seen order — ties are broken by first occurrence. -/
theorem C6_language_table (rs : List Repo) (d n : Int) :
    (∀ (l : String) (c : Nat),
      (l, c) ∈ (analyze_repos rs d n).languages ↔
        (l ≠ "" ∧ 0 < c ∧
          c = rs.countP (fun r => decide (r.language = some l)))) ∧
    (analyze_repos rs d n).languages.Pairwise countDescR ∧
    (∀ a b : String × Nat, a.2 = b.2 →
      List.Sublist [a, b] (foldRepos rs d n).languages →
      List.Sublist [a, b] (analyze_repos rs d n).languages) := by
  have hL : (analyze_repos rs d n).languages =
      List.insertionSort countDescR ((foldRepos rs d n).languages) := rfl
  refine ⟨?_, ?_, ?_⟩
  · intro l c
    rw [hL, (List.perm_insertionSort countDescR _).mem_iff,
      foldRepos_languages, counterOf_mem_iff]
    constructor
    · rintro ⟨h1, h2⟩
      rcases List.mem_filterMap.mp h1 with ⟨r, _, hr⟩
      have hl : l ≠ "" := truthyStr_ne_empty hr
      refine ⟨hl, ?_, by rw [h2, langList_count rs hl]⟩
      rw [h2]
      exact List.count_pos_iff.mpr h1
    · rintro ⟨h1, h2, h3⟩
      have hc := langList_count rs h1
      have hmem : l ∈ langList rs := by
        apply List.count_pos_iff.mp
        rw [hc, ← h3]
        exact h2
      exact ⟨hmem, by rw [hc, ← h3]⟩
  · rw [hL]
    exact List.sorted_insertionSort countDescR _
  · intro a b hab hsub
    rw [hL]
    exact List.pair_sublist_insertionSort (le_of_eq hab.symm) hsub

/-- C6 witness: the tie-stability part at a concrete two-language input —
`py` first seen before `rb`, both with count 1, stay in that order in the
emitted table. -/
theorem C6_witness :
    List.Sublist [("py", 1), ("rb", 1)]
      (analyze_repos [recLang "py", recLang "rb"] 90 0).languages :=
  (C6_language_table [recLang "py", recLang "rb"] 90 0).2.2 ("py", 1) ("rb", 1)
    rfl (by decide)

end GithubAgent
